import Mathlib

/-!
Verification of the structured-document (Helm/YAML) encoder of the fissile
repository.  The encoder implementation is shallowly embedded below; its test
suite (the helm package test file) fixes the expected byte-exact outputs, and
the conformance theorems at the end of this file check the embedding against
those expectations.
-/

set_option maxRecDepth 10000

namespace Helm

/-- Modelled from the spec: encoder configuration, an indent unit
(default two columns) and a comment wrap budget (default 0, disabled). -/
structure Config where
  indent : Nat
  wrap : Nat
deriving Repr, DecidableEq

/-- Modelled from the spec: the default configuration of a new encoder. -/
def Config.default : Config := ⟨2, 0⟩

mutual

/-- Modelled from the spec: the polymorphic document tree.  A node is a
Scalar (pre-formatted literal text), a List (ordered sequence of nodes) or an
Object (ordered key/value entries).  Every node carries two optional
annotations, a Comment and a Condition; the empty string means absent. -/
inductive Node where
  | scalar (value : String) (comment : String) (condition : String)
  | list (nodes : NodeList) (comment : String) (condition : String)
  | object (nodes : EntryList) (comment : String) (condition : String)

/-- Ordered members of a List node. -/
inductive NodeList where
  | nil
  | cons (head : Node) (tail : NodeList)

/-- Ordered (key, value) entries of an Object node. -/
inductive EntryList where
  | nil
  | cons (key : String) (node : Node) (tail : EntryList)

end

/-- Comment annotation of a node (empty string when absent). -/
def Node.comment : Node → String
  | .scalar _ c _ => c
  | .list _ c _ => c
  | .object _ c _ => c

/-- Condition annotation of a node (empty string when absent). -/
def Node.condition : Node → String
  | .scalar _ _ d => d
  | .list _ _ d => d
  | .object _ _ d => d

/-- Modelled from the spec: the uniform Apply mechanism.  A modifier either
decorates a node (comment, condition) or reconfigures an encoder
(indent, wrap). -/
inductive Modifier where
  | comment (text : String)
  | condition (text : String)
  | indent (width : Nat)
  | wrap (width : Nat)

/-- Modelled from the spec: applying a comment or condition modifier to a node
replaces any prior value of that kind; encoder modifiers are ignored by
nodes. -/
def Node.apply : Node → Modifier → Node
  | .scalar v _ d, .comment t => .scalar v t d
  | .list ns _ d, .comment t => .list ns t d
  | .object es _ d, .comment t => .object es t d
  | .scalar v c _, .condition t => .scalar v c t
  | .list ns c _, .condition t => .list ns c t
  | .object es c _, .condition t => .object es c t
  | n, .indent _ => n
  | n, .wrap _ => n

/-- Builds a scalar node from its literal text and modifiers. -/
def NewScalar (value : String) (mods : List Modifier) : Node :=
  mods.foldl Node.apply (.scalar value "" "")

/-- String of n spaces, the indentation of a line at column n. -/
def spaces (n : Nat) : String := String.mk (List.replicate n ' ')

/-- Splits a character list at every character satisfying p; the separators
are consumed and empty pieces are kept. -/
def splitCharsWhen (p : Char → Bool) : List Char → List (List Char)
  | [] => [[]]
  | c :: cs =>
    match splitCharsWhen p cs with
    | [] => [[c]]
    | r :: rs => if p c then [] :: r :: rs else (c :: r) :: rs

/-- Modelled from the spec: the source lines of a raw comment, split on
explicit line breaks; empty lines are preserved. -/
def splitLines (s : String) : List String :=
  (splitCharsWhen (fun c => c = '\n') s.data).map String.mk

/-- Modelled from the spec: the whitespace-separated words of a comment
source line. -/
def words (s : String) : List String :=
  ((splitCharsWhen Char.isWhitespace s.data).filter (fun w => w ≠ [])).map String.mk

/-- Modelled from the spec: greedy packing of the remaining words onto the
line currently holding cur; a word is appended while the line stays within
the budget, otherwise it starts a new line. -/
def packLine (budget : Nat) (cur : String) : List String → List String
  | [] => [cur]
  | w :: ws =>
    if cur.length + 1 + w.length ≤ budget then packLine budget (cur ++ " " ++ w) ws
    else cur :: packLine budget w ws

/-- Modelled from the spec: greedy packing of words into lines of at most
budget characters; a first word always starts its line, so a word longer than
the budget sits alone on its line. -/
def packWords (budget : Nat) : List String → List String
  | [] => []
  | w :: ws => packLine budget w ws

/-- Modelled from the spec: re-flow of one comment source line.  An empty
line stays an empty line; with wrap budget 0 a line passes through unchanged;
otherwise its words are greedily packed, counting the leading indent and the
two-character comment marker against the budget. -/
def wrapLine (wrap indent : Nat) (line : String) : List String :=
  if line = "" then [""]
  else if wrap = 0 then [line]
  else packWords (wrap - indent - 2) (words line)

/-- Modelled from the spec: the comment wrapper, producing the plain
(unprefixed, unindented) comment lines of a raw multi-line comment. -/
def wrapComment (wrap indent : Nat) (comment : String) : List String :=
  ((splitLines comment).map (wrapLine wrap indent)).flatten

/-- Modelled from the spec: the textual form of one comment line, a bare
hash for an empty line, otherwise the two-character marker plus the text. -/
def commentText (l : String) : String := if l = "" then "#" else "# " ++ l

/-- Drops trailing space characters; used to terminate a pending marker line
that no comment text could terminate. -/
def rtrim (s : String) : String :=
  String.mk (((s.data.reverse).dropWhile (fun c => c = ' ')).reverse)

/-- Modelled from the spec: comment emission at column col.  When a marker is
pending on the current line, the first wrapped comment line is appended
directly after that marker on the same line; all remaining lines are fully
indented fresh lines. -/
def commentBlock (cfg : Config) (col : Nat) (pending : Option String) (com : String) : List String :=
  match pending, wrapComment cfg.wrap col com with
  | some p, l :: rest => (p ++ commentText l) :: rest.map (fun l => spaces col ++ commentText l)
  | _, ls => ls.map (fun l => spaces col ++ commentText l)

/-- Modelled from the spec: the opening conditional directive line for the
stored condition text, indented to the guarded node column. -/
def openDirective (col : Nat) (cond : String) : String :=
  spaces col ++ "\x7b\x7b- " ++ cond ++ " \x7d\x7d"

/-- Modelled from the spec: the closing conditional directive line. -/
def closeDirective (col : Nat) : String :=
  spaces col ++ "\x7b\x7b- end \x7d\x7d"

/-- Modelled from the spec: the comment lines of an annotated node,
terminating any pending marker; a pending marker that no comment terminates
is emitted as its own right-trimmed line. -/
def commentPart (cfg : Config) (col : Nat) (pending : Option String) (com : String) : List String :=
  if com = "" then
    match pending with
    | some p => [rtrim p]
    | none => []
  else commentBlock cfg col pending com

/-- Modelled from the spec: the annotation prologue of an annotated node, the
comment lines followed by the opening directive when a condition is
present. -/
def annPrologue (cfg : Config) (col : Nat) (pending : Option String) (com cond : String) : List String :=
  commentPart cfg col pending com ++
  (if cond = "" then [] else [openDirective col cond])

/-- Modelled from the spec: the annotation epilogue, the closing directive
when a condition is present. -/
def annEpilogue (col : Nat) (cond : String) : List String :=
  if cond = "" then [] else [closeDirective col]

/-- Modelled from the spec: the pending line carrying the two-character item
marker at column m, either appended (with padding) to an already pending
chained line or starting fresh. -/
def markerLine (m : Nat) (pending : Option String) : String :=
  match pending with
  | some p => p ++ spaces (m - p.length) ++ "- "
  | none => spaces m ++ "- "

/-- Modelled from the spec: the pending line carrying key and colon, either
appended to an already pending marker line or starting fresh at column c. -/
def keyLine (c : Nat) (pending : Option String) (key : String) : String :=
  match pending with
  | some p => p ++ key ++ ":"
  | none => spaces c ++ key ++ ":"

mutual

/-- Modelled from the spec: the layout engine for one member of a List.  The
marker column is m; pending, when present, is the unterminated line of a
chained enclosing marker.  An unannotated member places its marker on the
pending line (chained inlining) or fresh at column m and renders its content
after it: a scalar inlines its text, a list chains into its members at column
(after-marker column) + indent - 2, an object inlines its first entry.  An
annotated member first emits its annotation prologue (breaking the chain),
then its marker fresh at column m, then its content, then the epilogue. -/
def renderItem (cfg : Config) (m : Nat) (pending : Option String) : Node → List String
  | .scalar v com cond =>
    if com = "" ∧ cond = "" then
      [markerLine m pending ++ v]
    else
      annPrologue cfg m pending com cond ++ [spaces m ++ "- " ++ v] ++ annEpilogue m cond
  | .list ns com cond =>
    if com = "" ∧ cond = "" then
      let p := markerLine m pending
      renderItems cfg (p.length + cfg.indent - 2) (some p) ns
    else
      let p := spaces m ++ "- "
      annPrologue cfg m pending com cond ++
        renderItems cfg (p.length + cfg.indent - 2) (some p) ns ++ annEpilogue m cond
  | .object es com cond =>
    if com = "" ∧ cond = "" then
      let p := markerLine m pending
      renderEntries cfg p.length (some p) es
    else
      let p := spaces m ++ "- "
      annPrologue cfg m pending com cond ++ renderEntries cfg p.length (some p) es ++
        annEpilogue m cond

/-- Modelled from the spec: renders the members of a List at marker column m;
only the first member may receive the pending chained line. -/
def renderItems (cfg : Config) (m : Nat) (pending : Option String) : NodeList → List String
  | .nil => []
  | .cons n ns => renderItem cfg m pending n ++ renderItems cfg m none ns

/-- Modelled from the spec: the layout engine for one Object entry at key
column c.  The value annotations come first (terminating any pending marker),
then the key line: a scalar value is inlined after the key and colon, a list
value starts on the next line with items at column c + indent - 2, an object
value starts on the next line with entries at column c + indent. -/
def renderEntry (cfg : Config) (c : Nat) (pending : Option String) (key : String) : Node → List String
  | .scalar v com cond =>
    if com = "" ∧ cond = "" then
      [keyLine c pending key ++ " " ++ v]
    else
      annPrologue cfg c pending com cond ++ [spaces c ++ key ++ ": " ++ v] ++ annEpilogue c cond
  | .list ns com cond =>
    if com = "" ∧ cond = "" then
      keyLine c pending key :: renderItems cfg (c + cfg.indent - 2) none ns
    else
      annPrologue cfg c pending com cond ++
        ((spaces c ++ key ++ ":") :: renderItems cfg (c + cfg.indent - 2) none ns) ++
        annEpilogue c cond
  | .object es com cond =>
    if com = "" ∧ cond = "" then
      keyLine c pending key :: renderEntries cfg (c + cfg.indent) none es
    else
      annPrologue cfg c pending com cond ++
        ((spaces c ++ key ++ ":") :: renderEntries cfg (c + cfg.indent) none es) ++
        annEpilogue c cond

/-- Modelled from the spec: renders the entries of an Object at key column c;
only the first entry may receive the pending chained line. -/
def renderEntries (cfg : Config) (c : Nat) (pending : Option String) : EntryList → List String
  | .nil => []
  | .cons k n es => renderEntry cfg c pending k n ++ renderEntries cfg c none es

end

/-- Modelled from the spec: rendering of the document root, which must be an
Object; its annotations and entries all sit at column zero, with no owning
key and no pending marker. -/
def renderRoot (cfg : Config) : Node → Option (List String)
  | .object es com cond =>
    some (annPrologue cfg 0 none com cond ++ renderEntries cfg 0 none es ++ annEpilogue 0 cond)
  | _ => none

/-- Joins rendered lines, each terminated by a line break. -/
def joinLines : List String → String
  | [] => ""
  | l :: ls => l ++ "\n" ++ joinLines ls

/-- Modelled from the spec: one Encode call renders the three-character
document start marker line followed by the root Mapping; a non-Mapping root
is a contract violation and yields none. -/
def encodeDoc (cfg : Config) (root : Node) : Option String :=
  (renderRoot cfg root).map (fun ls => "---\n" ++ joinLines ls)

/-- Modelled from the spec: the encoder, holding its persistent configuration
and the bytes already written to the sink. -/
structure Encoder where
  config : Config
  out : String

/-- Modelled from the spec: applying an indent or wrap modifier to an encoder
updates its configuration for subsequent Encode calls; node modifiers are
ignored by encoders. -/
def Encoder.apply (e : Encoder) : Modifier → Encoder
  | .indent n => { e with config := { e.config with indent := n } }
  | .wrap n => { e with config := { e.config with wrap := n } }
  | _ => e

/-- Modelled from the spec: a new encoder over an empty sink with default
configuration, then modified by the given options. -/
def NewEncoder (mods : List Modifier) : Encoder :=
  mods.foldl Encoder.apply ⟨Config.default, ""⟩

/-- Modelled from the spec: Encode appends one rendered document to the sink;
a non-Mapping root writes nothing. -/
def Encoder.encode (e : Encoder) (root : Node) : Encoder :=
  match encodeDoc e.config root with
  | some s => { e with out := e.out ++ s }
  | none => e

/-! The annotate helper of the test suite: a depth-first pass that decorates
every node with a numbered comment or condition (node first, then children
left to right). -/

/-- Text of the n-th annotation produced by the test annotate helper. -/
def annText (isComment : Bool) (j : Nat) : String :=
  if isComment then "comment " ++ toString j else "if condition " ++ toString j

/-- Replacement of the comment or the condition by the n-th annotation. -/
def annSet (isComment : Bool) (j : Nat) (c d : String) : String × String :=
  if isComment then (annText true j, d) else (c, annText false j)

mutual

/-- Test helper annotate on one node: the node receives annotation i + 1,
then its children are annotated in order. -/
def annotateNode (isComment : Bool) (i : Nat) : Node → Node × Nat
  | .scalar v c d =>
    let (c', d') := annSet isComment (i + 1) c d
    (.scalar v c' d', i + 1)
  | .list ns c d =>
    let (c', d') := annSet isComment (i + 1) c d
    let (ns', k) := annotateList isComment (i + 1) ns
    (.list ns' c' d', k)
  | .object es c d =>
    let (c', d') := annSet isComment (i + 1) c d
    let (es', k) := annotateEntries isComment (i + 1) es
    (.object es' c' d', k)

/-- Test helper annotate over list members. -/
def annotateList (isComment : Bool) (i : Nat) : NodeList → NodeList × Nat
  | .nil => (.nil, i)
  | .cons n ns =>
    let (n', j) := annotateNode isComment i n
    let (ns', k) := annotateList isComment j ns
    (.cons n' ns', k)

/-- Test helper annotate over object entries. -/
def annotateEntries (isComment : Bool) (i : Nat) : EntryList → EntryList × Nat
  | .nil => (.nil, i)
  | .cons k0 n es =>
    let (n', j) := annotateNode isComment i n
    let (es', k) := annotateEntries isComment j es
    (.cons k0 n' es', k)

end

/-- Test helper addComments: numbered comments on every node. -/
def addComments (n : Node) : Node := (annotateNode true 0 n).1

/-- Test helper addConditions: numbered conditions on every node. -/
def addConditions (n : Node) : Node := (annotateNode false 0 n).1

/-! Concrete trees of the test suite, used by the conformance theorems and as
witness inputs. -/

/-- Plain scalar node. -/
def sc (v : String) : Node := .scalar v "" ""

/-- Scalar node with a comment. -/
def scc (v c : String) : Node := .scalar v c ""

/-- NodeList from a Lean list. -/
def nodeListOf (l : List Node) : NodeList := l.foldr .cons .nil

/-- EntryList from a Lean list of pairs. -/
def entryListOf (l : List (String × Node)) : EntryList :=
  l.foldr (fun p t => .cons p.1 p.2 t) .nil

/-- Tree of TestHelmScalar. -/
def scalarRoot : Node := .object (entryListOf [("Scalar", sc "42")]) "" ""

/-- Tree of TestHelmList. -/
def listRoot : Node :=
  .object (entryListOf [("List", .list (nodeListOf [sc "1", sc "2", sc "3"]) "" "")]) "" ""

/-- Inner list of TestHelmListOfList. -/
def lolList1 : Node := .list (nodeListOf [sc "1", sc "2"]) "" ""

/-- Middle list of TestHelmListOfList. -/
def lolList2 : Node := .list (nodeListOf [lolList1, sc "x", sc "y"]) "" ""

/-- Outer list of TestHelmListOfList. -/
def lolList3 : Node := .list (nodeListOf [lolList2, sc "foo", sc "bar"]) "" ""

/-- Tree of TestHelmListOfList. -/
def lolRoot : Node := .object (entryListOf [("List", lolList3)]) "" ""

/-- Tree of TestHelmObject. -/
def objectRoot : Node :=
  .object (entryListOf
    [("Object", .object (entryListOf
      [("foo", sc "1"), ("bar", sc "2"), ("baz", sc "3")]) "" "")]) "" ""

/-- Tree of TestHelmListOfObject. -/
def looRoot : Node :=
  .object (entryListOf
    [("Object", .list (nodeListOf
      [.object (entryListOf
        [("Foo", sc "foo"), ("Bar", sc "bar"), ("Baz", sc "baz")]) "" ""]) "" "")]) "" ""

/-- Tree of TestHelmObjectOfList. -/
def oolRoot : Node :=
  .object (entryListOf
    [("Object", .object (entryListOf
      [("List", .list (nodeListOf [sc "1", sc "2", sc "3"]) "" "")]) "" "")]) "" ""

/-- First tree of TestHelmMultiLineComment. -/
def mlcRoot1 : Node := .object (entryListOf [("Scalar", scc "42" "Many\n\nlines")]) "" ""

/-- Second tree of TestHelmMultiLineComment, the list-of-list case. -/
def mlcRoot2 : Node :=
  .object (entryListOf
    [("List", .list (nodeListOf
      [.list (nodeListOf [scc "42" "Many\n\nlines"]) "" "", sc "foo"]) "" "")]) "" ""

/-- Tree of TestHelmIndent. -/
def indentRoot : Node :=
  .object (entryListOf
    [("Object", .object (entryListOf
      [("List", .list (nodeListOf
        [.object (entryListOf [("Foo", scc "Bar" "Baz")]) "" "",
         sc "1",
         .list (nodeListOf [sc "abc", sc "xyz"]) "" "",
         sc "2", sc "3"]) "" ""),
       ("Meta", .object (entryListOf [("Foo", sc "1"), ("Bar", sc "2")]) "" "")]) "" "")]) "" ""

/-- String s repeated n times. -/
def rep (s : String) : Nat → String
  | 0 => ""
  | n + 1 => s ++ rep s n

/-- Nested object of TestHelmWrapLongComments. -/
def wrapNested : Node :=
  .object (entryListOf
    [("Key2", scc "~" (rep "12 " 5)),
     ("Key3", scc "~" (rep "123 " 5)),
     ("Key4", scc "~" (rep "1234 " 5)),
     ("Very", scc "Long" (rep (rep "x" 50 ++ " ") 2))]) "" ""

/-- Tree of TestHelmWrapLongComments. -/
def wrapRoot : Node :=
  .object (entryListOf
    [("Key2", scc "~" (rep "12 " 10)),
     ("Key3", scc "~" (rep "123 " 10)),
     ("Key4", scc "~" (rep "1234 " 10)),
     ("Key5", scc "~" (rep "12345 " 10)),
     ("Key6", scc "~" (rep "123456 " 10)),
     ("Very", scc "Long" (rep (rep "x" 50 ++ " ") 2)),
     ("Nested", wrapNested)]) "" ""

/-- Tree of TestHelmEncoderModifier. -/
def modifierRoot : Node :=
  .object (entryListOf
    [("Object", .object (entryListOf
      [("foo", sc "1"), ("bar", sc "2"), ("baz", sc "3")]) "" "")]) "" ""

/-! Conformance of the spec-modelled encoder with the byte-exact expectations
of the repository test suite. -/

/-- Conformance with TestHelmScalar, plain tree. -/
theorem conf_scalar_plain :
    encodeDoc Config.default scalarRoot = some "---\nScalar: 42\n" := rfl

/-- Conformance with TestHelmScalar after addComments. -/
theorem conf_scalar_comments :
    encodeDoc Config.default (addComments scalarRoot) =
      some "---\n# comment 1\n# comment 2\nScalar: 42\n" := rfl

/-- Conformance with TestHelmScalar after addComments and addConditions. -/
theorem conf_scalar_conditions :
    encodeDoc Config.default (addConditions (addComments scalarRoot)) =
      some "---\n# comment 1\n\x7b\x7b- if condition 1 \x7d\x7d\n# comment 2\n\x7b\x7b- if condition 2 \x7d\x7d\nScalar: 42\n\x7b\x7b- end \x7d\x7d\n\x7b\x7b- end \x7d\x7d\n" := rfl

/-- Conformance with TestHelmList, plain tree. -/
theorem conf_list_plain :
    encodeDoc Config.default listRoot = some "---\nList:\n- 1\n- 2\n- 3\n" := rfl

/-- Conformance with TestHelmList after addComments. -/
theorem conf_list_comments :
    encodeDoc Config.default (addComments listRoot) =
      some "---\n# comment 1\n# comment 2\nList:\n# comment 3\n- 1\n# comment 4\n- 2\n# comment 5\n- 3\n" := rfl

/-- Conformance with TestHelmList after addComments and addConditions. -/
theorem conf_list_conditions :
    encodeDoc Config.default (addConditions (addComments listRoot)) =
      some "---\n# comment 1\n\x7b\x7b- if condition 1 \x7d\x7d\n# comment 2\n\x7b\x7b- if condition 2 \x7d\x7d\nList:\n# comment 3\n\x7b\x7b- if condition 3 \x7d\x7d\n- 1\n\x7b\x7b- end \x7d\x7d\n# comment 4\n\x7b\x7b- if condition 4 \x7d\x7d\n- 2\n\x7b\x7b- end \x7d\x7d\n# comment 5\n\x7b\x7b- if condition 5 \x7d\x7d\n- 3\n\x7b\x7b- end \x7d\x7d\n\x7b\x7b- end \x7d\x7d\n\x7b\x7b- end \x7d\x7d\n" := rfl

/-- Conformance with TestHelmListOfList, plain tree. -/
theorem conf_lol_plain :
    encodeDoc Config.default lolRoot =
      some "---\nList:\n- - - 1\n    - 2\n  - x\n  - y\n- foo\n- bar\n" := rfl

/-- Conformance with TestHelmListOfList after addComments. -/
theorem conf_lol_comments :
    encodeDoc Config.default (addComments lolRoot) =
      some "---\n# comment 1\n# comment 2\nList:\n# comment 3\n- # comment 4\n  - # comment 5\n    - 1\n    # comment 6\n    - 2\n  # comment 7\n  - x\n  # comment 8\n  - y\n# comment 9\n- foo\n# comment 10\n- bar\n" := rfl

/-- Conformance with TestHelmListOfList after addComments and
addConditions. -/
theorem conf_lol_conditions :
    encodeDoc Config.default (addConditions (addComments lolRoot)) =
      some "---\n# comment 1\n\x7b\x7b- if condition 1 \x7d\x7d\n# comment 2\n\x7b\x7b- if condition 2 \x7d\x7d\nList:\n# comment 3\n\x7b\x7b- if condition 3 \x7d\x7d\n- # comment 4\n  \x7b\x7b- if condition 4 \x7d\x7d\n  - # comment 5\n    \x7b\x7b- if condition 5 \x7d\x7d\n    - 1\n    \x7b\x7b- end \x7d\x7d\n    # comment 6\n    \x7b\x7b- if condition 6 \x7d\x7d\n    - 2\n    \x7b\x7b- end \x7d\x7d\n  \x7b\x7b- end \x7d\x7d\n  # comment 7\n  \x7b\x7b- if condition 7 \x7d\x7d\n  - x\n  \x7b\x7b- end \x7d\x7d\n  # comment 8\n  \x7b\x7b- if condition 8 \x7d\x7d\n  - y\n  \x7b\x7b- end \x7d\x7d\n\x7b\x7b- end \x7d\x7d\n# comment 9\n\x7b\x7b- if condition 9 \x7d\x7d\n- foo\n\x7b\x7b- end \x7d\x7d\n# comment 10\n\x7b\x7b- if condition 10 \x7d\x7d\n- bar\n\x7b\x7b- end \x7d\x7d\n\x7b\x7b- end \x7d\x7d\n\x7b\x7b- end \x7d\x7d\n" := rfl

/-- Conformance with TestHelmObject after addComments and addConditions. -/
theorem conf_object_conditions :
    encodeDoc Config.default (addConditions (addComments objectRoot)) =
      some "---\n# comment 1\n\x7b\x7b- if condition 1 \x7d\x7d\n# comment 2\n\x7b\x7b- if condition 2 \x7d\x7d\nObject:\n  # comment 3\n  \x7b\x7b- if condition 3 \x7d\x7d\n  foo: 1\n  \x7b\x7b- end \x7d\x7d\n  # comment 4\n  \x7b\x7b- if condition 4 \x7d\x7d\n  bar: 2\n  \x7b\x7b- end \x7d\x7d\n  # comment 5\n  \x7b\x7b- if condition 5 \x7d\x7d\n  baz: 3\n  \x7b\x7b- end \x7d\x7d\n\x7b\x7b- end \x7d\x7d\n\x7b\x7b- end \x7d\x7d\n" := rfl

/-- Conformance with TestHelmListOfObject after addComments. -/
theorem conf_loo_comments :
    encodeDoc Config.default (addComments looRoot) =
      some "---\n# comment 1\n# comment 2\nObject:\n# comment 3\n- # comment 4\n  Foo: foo\n  # comment 5\n  Bar: bar\n  # comment 6\n  Baz: baz\n" := rfl

/-- Conformance with TestHelmListOfObject after addComments and
addConditions. -/
theorem conf_loo_conditions :
    encodeDoc Config.default (addConditions (addComments looRoot)) =
      some "---\n# comment 1\n\x7b\x7b- if condition 1 \x7d\x7d\n# comment 2\n\x7b\x7b- if condition 2 \x7d\x7d\nObject:\n# comment 3\n\x7b\x7b- if condition 3 \x7d\x7d\n- # comment 4\n  \x7b\x7b- if condition 4 \x7d\x7d\n  Foo: foo\n  \x7b\x7b- end \x7d\x7d\n  # comment 5\n  \x7b\x7b- if condition 5 \x7d\x7d\n  Bar: bar\n  \x7b\x7b- end \x7d\x7d\n  # comment 6\n  \x7b\x7b- if condition 6 \x7d\x7d\n  Baz: baz\n  \x7b\x7b- end \x7d\x7d\n\x7b\x7b- end \x7d\x7d\n\x7b\x7b- end \x7d\x7d\n\x7b\x7b- end \x7d\x7d\n" := rfl

/-- Conformance with TestHelmObjectOfList after addComments and
addConditions. -/
theorem conf_ool_conditions :
    encodeDoc Config.default (addConditions (addComments oolRoot)) =
      some "---\n# comment 1\n\x7b\x7b- if condition 1 \x7d\x7d\n# comment 2\n\x7b\x7b- if condition 2 \x7d\x7d\nObject:\n  # comment 3\n  \x7b\x7b- if condition 3 \x7d\x7d\n  List:\n  # comment 4\n  \x7b\x7b- if condition 4 \x7d\x7d\n  - 1\n  \x7b\x7b- end \x7d\x7d\n  # comment 5\n  \x7b\x7b- if condition 5 \x7d\x7d\n  - 2\n  \x7b\x7b- end \x7d\x7d\n  # comment 6\n  \x7b\x7b- if condition 6 \x7d\x7d\n  - 3\n  \x7b\x7b- end \x7d\x7d\n  \x7b\x7b- end \x7d\x7d\n\x7b\x7b- end \x7d\x7d\n\x7b\x7b- end \x7d\x7d\n" := rfl

/-- Conformance with TestHelmMultiLineComment, scalar case. -/
theorem conf_mlc_scalar :
    encodeDoc Config.default mlcRoot1 =
      some "---\n# Many\n#\n# lines\nScalar: 42\n" := rfl

/-- Conformance with TestHelmMultiLineComment, list-of-list case. -/
theorem conf_mlc_lol :
    encodeDoc Config.default mlcRoot2 =
      some "---\nList:\n- # Many\n  #\n  # lines\n  - 42\n- foo\n" := rfl

/-- Conformance with TestHelmIndent, indent unit 4. -/
theorem conf_indent :
    encodeDoc ⟨4, 0⟩ indentRoot =
      some "---\nObject:\n    List:\n      - # Baz\n        Foo: Bar\n      - 1\n      -   - abc\n          - xyz\n      - 2\n      - 3\n    Meta:\n        Foo: 1\n        Bar: 2\n" := rfl

/-- Conformance with TestHelmWrapLongComments, indent 10 and wrap 24. -/
theorem conf_wrap :
    encodeDoc ⟨10, 24⟩ wrapRoot =
      some "---\n# 12 12 12 12 12 12 12\n# 12 12 12\nKey2: ~\n# 123 123 123 123 123\n# 123 123 123 123 123\nKey3: ~\n# 1234 1234 1234 1234\n# 1234 1234 1234 1234\n# 1234 1234\nKey4: ~\n# 12345 12345 12345\n# 12345 12345 12345\n# 12345 12345 12345\n# 12345\nKey5: ~\n# 123456 123456 123456\n# 123456 123456 123456\n# 123456 123456 123456\n# 123456\nKey6: ~\n# xxxxxxxxxxxxxxxxxxxxxxxxxxxxxxxxxxxxxxxxxxxxxxxxxx\n# xxxxxxxxxxxxxxxxxxxxxxxxxxxxxxxxxxxxxxxxxxxxxxxxxx\nVery: Long\nNested:\n          # 12 12 12 12\n          # 12\n          Key2: ~\n          # 123 123 123\n          # 123 123\n          Key3: ~\n          # 1234 1234\n          # 1234 1234\n          # 1234\n          Key4: ~\n          # xxxxxxxxxxxxxxxxxxxxxxxxxxxxxxxxxxxxxxxxxxxxxxxxxx\n          # xxxxxxxxxxxxxxxxxxxxxxxxxxxxxxxxxxxxxxxxxxxxxxxxxx\n          Very: Long\n" := rfl

/-- Conformance with TestHelmEncoderModifier: two Encode calls with an
Apply of a new indent unit in between. -/
theorem conf_modifier :
    ((((NewEncoder []).encode modifierRoot).apply (.indent 4)).encode modifierRoot).out =
      "---\nObject:\n  foo: 1\n  bar: 2\n  baz: 3\n---\nObject:\n    foo: 1\n    bar: 2\n    baz: 3\n" := rfl

/-! Supporting lemmas for the claim theorems. -/

/-- Zero spaces is the empty string. -/
theorem spaces_zero : spaces 0 = "" := rfl

/-- Nest of k singleton sequences around a scalar; the chained inlining of
the layout engine writes all k markers on one physical line. -/
def nestList (v : String) : Nat → Node
  | 0 => sc v
  | k + 1 => .list (.cons (nestList v k) .nil) "" ""

/-- With default indent, a nest of singleton sequences reached with a
pending chained marker line renders as one single line: the pending line,
one further marker per nesting level, then the scalar text. -/
theorem renderItem_nestList (v : String) (k : Nat) (p : String) (m : Nat)
    (hm : m = p.length) :
    renderItem ⟨2, 0⟩ m (some p) (nestList v k) = [p ++ (rep "- " (k + 1) ++ v)] := by
  induction k generalizing p m with
  | zero =>
    subst hm
    simp [nestList, sc, renderItem, markerLine, rep, spaces_zero, String.append_empty,
      String.append_assoc]
  | succ k ih =>
    subst hm
    have hp : markerLine p.length (some p) = p ++ "- " := by
      simp [markerLine, spaces_zero, String.append_empty]
    simp only [nestList, renderItem, hp, and_self, if_true, eq_self_iff_true, renderItems]
    rw [ih (p ++ "- ") _ (by simp [String.length_append])]
    simp [rep, String.append_assoc]

/-- Keys of an Object in order. -/
def EntryList.keys : EntryList → List String
  | .nil => []
  | .cons k _ t => k :: keys t

/-- Number of entries of an Object. -/
def EntryList.count : EntryList → Nat
  | .nil => 0
  | .cons _ _ t => count t + 1

/-- Joins words with single spaces; the flattened text content of a packed
comment. -/
def joinSp : List String → String
  | [] => ""
  | [w] => w
  | w :: ws => w ++ " " ++ joinSp ws

/-- The comment block at a column with no pending marker is the wrapped
comment, each line indented and prefixed. -/
theorem commentBlock_none (cfg : Config) (col : Nat) (com : String) :
    commentBlock cfg col none com =
      (wrapComment cfg.wrap col com).map (fun l => spaces col ++ commentText l) := rfl

/-- With default indent, a nest of singleton sequences starting a fresh item
line at column zero renders as one line of chained markers plus the text. -/
theorem renderItem_nestList_none (v : String) (k : Nat) :
    renderItem ⟨2, 0⟩ 0 none (nestList v k) = ["- " ++ (rep "- " k ++ v)] := by
  cases k with
  | zero =>
    simp [nestList, sc, renderItem, markerLine, rep, spaces_zero, String.empty_append,
      String.append_empty]
  | succ j =>
    have hp : markerLine 0 none = "- " := by
      simp [markerLine, spaces_zero, String.empty_append]
    simp only [nestList, renderItem, hp, and_self, if_true, eq_self_iff_true, renderItems]
    have hc : String.length "- " + 2 - 2 = 2 := rfl
    rw [hc, renderItem_nestList v j "- " 2 rfl]
    simp [rep, String.append_assoc]

/-- An unannotated scalar member renders as its marker line at the item
column followed by its literal text. -/
theorem mem_renderItems_scalar (cfg : Config) (m : Nat) (vs : List String) (v : String)
    (hv : v ∈ vs) :
    spaces m ++ "- " ++ v ∈ renderItems cfg m none (nodeListOf (vs.map sc)) := by
  induction vs with
  | nil => cases hv
  | cons w ws ih =>
    simp only [List.map_cons, nodeListOf, List.foldr_cons, renderItems]
    rcases List.mem_cons.mp hv with h | h
    · subst h
      simp [renderItem, sc, markerLine]
    · have := ih h
      simp only [nodeListOf] at this
      exact List.mem_append.mpr (Or.inr this)

/-! Claim theorems. -/

/-- C1: chained inlining.  A run of leading unannotated containers writes its
markers on one physical line: a nest of singleton sequences of any depth
renders its markers and the final scalar on the single line after the key
line; Sequence[Sequence[a, b], x, y] under a key yields the chained line,
with the inner members two columns deeper than the outer members; the
triple-nested tree of the test suite renders likewise. -/
theorem C1_chained_inlining :
    (∀ (v : String) (k : Nat),
      renderRoot Config.default (.object (.cons "List" (nestList v (k + 1)) .nil) "" "") =
        some ["List:", rep "- " (k + 1) ++ v]) ∧
    encodeDoc Config.default
      (.object (.cons "List" (.list (.cons (.list (.cons (sc "1") (.cons (sc "2") .nil)) "" "")
        (.cons (sc "x") (.cons (sc "y") .nil))) "" "") .nil) "" "") =
      some "---\nList:\n- - 1\n  - 2\n- x\n- y\n" ∧
    encodeDoc Config.default lolRoot =
      some "---\nList:\n- - - 1\n    - 2\n  - x\n  - y\n- foo\n- bar\n" := by
  refine ⟨?_, rfl, rfl⟩
  intro v k
  simp [renderRoot, Config.default, annPrologue, commentPart, annEpilogue, renderEntries,
    renderEntry, renderItems, nestList, keyLine, spaces_zero, String.append_empty,
    String.empty_append, renderItem_nestList_none, rep, String.append_assoc]

/-- C2: annotation barrier for comments.  A node carrying a comment is never
inlined: with a marker pending on the current line, the first wrapped
comment line is appended directly after the marker on that same line and
the remaining wrapped comment lines are emitted fully indented at the target
column; the two-line-comment scenario of the claim renders with the comment
after the outer marker and the inner marker plus value on the following
indented line. -/
theorem C2_comment_barrier :
    (∀ (cfg : Config) (m : Nat) (p : String) (n : Node) (l : String) (ls : List String),
      n.comment ≠ "" →
      wrapComment cfg.wrap m n.comment = l :: ls →
      ∃ rest, renderItem cfg m (some p) n =
        (p ++ commentText l) :: (ls.map (fun l0 => spaces m ++ commentText l0) ++ rest)) ∧
    encodeDoc Config.default
      (.object (.cons "List" (.list (.cons (.list (.cons (.scalar "42" "Many\nlines" "") .nil) "" "")
        (.cons (sc "foo") .nil)) "" "") .nil) "" "") =
      some "---\nList:\n- # Many\n  # lines\n  - 42\n- foo\n" := by
  refine ⟨?_, rfl⟩
  intro cfg m p n l ls hcom hwrap
  cases n with
  | scalar v com cond =>
    simp only [Node.comment] at hcom hwrap
    have hne : ¬(com = "" ∧ cond = "") := fun h => hcom h.1
    refine ⟨(if cond = "" then [] else [openDirective m cond]) ++
      ([spaces m ++ "- " ++ v] ++ annEpilogue m cond), ?_⟩
    simp only [renderItem, if_neg hne, annPrologue, commentPart, if_neg hcom, commentBlock, hwrap]
    simp [List.append_assoc]
  | list ns com cond =>
    simp only [Node.comment] at hcom hwrap
    have hne : ¬(com = "" ∧ cond = "") := fun h => hcom h.1
    refine ⟨(if cond = "" then [] else [openDirective m cond]) ++
      (renderItems cfg ((spaces m ++ "- ").length + cfg.indent - 2) (some (spaces m ++ "- ")) ns ++
        annEpilogue m cond), ?_⟩
    simp only [renderItem, if_neg hne, annPrologue, commentPart, if_neg hcom, commentBlock, hwrap]
    simp [List.append_assoc]
  | object es com cond =>
    simp only [Node.comment] at hcom hwrap
    have hne : ¬(com = "" ∧ cond = "") := fun h => hcom h.1
    refine ⟨(if cond = "" then [] else [openDirective m cond]) ++
      (renderEntries cfg (spaces m ++ "- ").length (some (spaces m ++ "- ")) es ++
        annEpilogue m cond), ?_⟩
    simp only [renderItem, if_neg hne, annPrologue, commentPart, if_neg hcom, commentBlock, hwrap]
    simp [List.append_assoc]

/-- C2 witness: the barrier theorem applied to the concrete annotated scalar
of the multi-line-comment test, chained after a pending outer marker. -/
theorem C2_comment_barrier_witness :
    ∃ rest, renderItem ⟨2, 0⟩ 2 (some "- ") (.scalar "42" "Many\nlines" "") =
      ("- " ++ commentText "Many") ::
        (["lines"].map (fun l0 => spaces 2 ++ commentText l0) ++ rest) :=
  C2_comment_barrier.1 ⟨2, 0⟩ 2 "- " (.scalar "42" "Many\nlines" "") "Many" ["lines"]
    (by decide) (by rfl)

/-- C6: a node with both a comment and a condition renders as its comment
lines, then the opening directive built from the stored condition text, then
the node content, then the closing directive, all indented to the node
target column. -/
theorem C6_condition_wrapping :
    ∀ (cfg : Config) (c : Nat) (key : String) (n : Node),
      n.comment ≠ "" → n.condition ≠ "" →
      ∃ body, renderEntry cfg c none key n =
        (wrapComment cfg.wrap c n.comment).map (fun l => spaces c ++ commentText l) ++
          ([spaces c ++ "\x7b\x7b- " ++ n.condition ++ " \x7d\x7d"] ++ body ++
            [spaces c ++ "\x7b\x7b- end \x7d\x7d"]) := by
  intro cfg c key n hcom hcond
  cases n with
  | scalar v com cond =>
    simp only [Node.comment, Node.condition] at hcom hcond ⊢
    have hne : ¬(com = "" ∧ cond = "") := fun h => hcom h.1
    refine ⟨[spaces c ++ key ++ ": " ++ v], ?_⟩
    simp only [renderEntry, if_neg hne, annPrologue, commentPart, if_neg hcom, commentBlock_none,
      annEpilogue, if_neg hcond, openDirective, closeDirective]
    simp
  | list ns com cond =>
    simp only [Node.comment, Node.condition] at hcom hcond ⊢
    have hne : ¬(com = "" ∧ cond = "") := fun h => hcom h.1
    refine ⟨(spaces c ++ key ++ ":") :: renderItems cfg (c + cfg.indent - 2) none ns, ?_⟩
    simp only [renderEntry, if_neg hne, annPrologue, commentPart, if_neg hcom, commentBlock_none,
      annEpilogue, if_neg hcond, openDirective, closeDirective]
    simp
  | object es com cond =>
    simp only [Node.comment, Node.condition] at hcom hcond ⊢
    have hne : ¬(com = "" ∧ cond = "") := fun h => hcom h.1
    refine ⟨(spaces c ++ key ++ ":") :: renderEntries cfg (c + cfg.indent) none es, ?_⟩
    simp only [renderEntry, if_neg hne, annPrologue, commentPart, if_neg hcom, commentBlock_none,
      annEpilogue, if_neg hcond, openDirective, closeDirective]
    simp

/-- C6 witness: the wrapping theorem applied to a concrete annotated
scalar entry. -/
theorem C6_condition_wrapping_witness :
    ∃ body, renderEntry ⟨2, 0⟩ 2 none "foo" (.scalar "1" "note" "if x") =
      (wrapComment 0 2 "note").map (fun l => spaces 2 ++ commentText l) ++
        ([spaces 2 ++ "\x7b\x7b- " ++ "if x" ++ " \x7d\x7d"] ++ body ++
          [spaces 2 ++ "\x7b\x7b- end \x7d\x7d"]) :=
  C6_condition_wrapping ⟨2, 0⟩ 2 "foo" (.scalar "1" "note" "if x") (by decide) (by decide)

/-- C7: the sequence-of-scalars scenario encodes to the exact stated bytes,
and in general the items of a sequence one level under a key at column c
render their markers at column c + U - 2 for indent unit U at least 2. -/
theorem C7_sequence_item_column :
    encodeDoc Config.default listRoot = some "---\nList:\n- 1\n- 2\n- 3\n" ∧
    ∀ (cfg : Config) (c : Nat) (key com cond : String) (vs : List String) (v : String),
      2 ≤ cfg.indent → v ∈ vs →
      spaces (c + cfg.indent - 2) ++ "- " ++ v ∈
        renderEntry cfg c none key (.list (nodeListOf (vs.map sc)) com cond) := by
  refine ⟨rfl, ?_⟩
  intro cfg c key com cond vs v hU hv
  have hmem := mem_renderItems_scalar cfg (c + cfg.indent - 2) vs v hv
  by_cases h : com = "" ∧ cond = ""
  · simp only [renderEntry, if_pos h]
    exact List.mem_cons_of_mem _ hmem
  · simp only [renderEntry, if_neg h]
    refine List.mem_append.mpr (Or.inl (List.mem_append.mpr (Or.inr ?_)))
    exact List.mem_cons_of_mem _ hmem

/-- C7 witness: the item-column theorem applied to the list test tree. -/
theorem C7_sequence_item_column_witness :
    spaces (0 + 2 - 2) ++ "- " ++ "2" ∈
      renderEntry ⟨2, 0⟩ 0 none "List" (.list (nodeListOf (["1", "2", "3"].map sc)) "" "") :=
  C7_sequence_item_column.2 ⟨2, 0⟩ 0 "List" "" "" ["1", "2", "3"] "2"
    (by decide) (by decide)

/-- C8: encoder statefulness.  Encode appends one document starting with the
three-character marker line; applying a new indent unit between Encode
calls leaves the already-written bytes unchanged and takes effect on the
next Encode call. -/
theorem C8_encoder_statefulness :
    ∀ (e : Encoder) (r1 r2 : Node) (u : Nat) (d1 d2 : String),
      encodeDoc e.config r1 = some d1 →
      encodeDoc { e.config with indent := u } r2 = some d2 →
      (e.encode r1).out = e.out ++ d1 ∧
      ((e.encode r1).apply (.indent u)).out = e.out ++ d1 ∧
      (((e.encode r1).apply (.indent u)).encode r2).out = e.out ++ (d1 ++ d2) ∧
      (∃ t1, d1 = "---\n" ++ t1) ∧ (∃ t2, d2 = "---\n" ++ t2) := by
  intro e r1 r2 u d1 d2 h1 h2
  obtain ⟨ls1, hls1, hd1⟩ := Option.map_eq_some'.mp h1
  obtain ⟨ls2, hls2, hd2⟩ := Option.map_eq_some'.mp h2
  refine ⟨?_, ?_, ?_, ⟨joinLines ls1, hd1.symm⟩, ⟨joinLines ls2, hd2.symm⟩⟩ <;>
    simp [Encoder.encode, Encoder.apply, h1, h2, String.append_assoc]

/-- C8 witness: the statefulness theorem applied to the encoder-modifier
test, with the indent unit changed to 4 between the two Encode calls. -/
theorem C8_encoder_statefulness_witness :
    ((NewEncoder []).encode modifierRoot).out =
      (NewEncoder []).out ++ "---\nObject:\n  foo: 1\n  bar: 2\n  baz: 3\n" ∧
    (((NewEncoder []).encode modifierRoot).apply (.indent 4)).out =
      (NewEncoder []).out ++ "---\nObject:\n  foo: 1\n  bar: 2\n  baz: 3\n" ∧
    ((((NewEncoder []).encode modifierRoot).apply (.indent 4)).encode modifierRoot).out =
      (NewEncoder []).out ++ ("---\nObject:\n  foo: 1\n  bar: 2\n  baz: 3\n" ++
        "---\nObject:\n    foo: 1\n    bar: 2\n    baz: 3\n") ∧
    (∃ t1, "---\nObject:\n  foo: 1\n  bar: 2\n  baz: 3\n" = "---\n" ++ t1) ∧
    (∃ t2, "---\nObject:\n    foo: 1\n    bar: 2\n    baz: 3\n" = "---\n" ++ t2) :=
  C8_encoder_statefulness (NewEncoder []) modifierRoot modifierRoot 4
    "---\nObject:\n  foo: 1\n  bar: 2\n  baz: 3\n"
    "---\nObject:\n    foo: 1\n    bar: 2\n    baz: 3\n" (by rfl) (by rfl)

/-- C9: determinism.  Encoding the same tree twice on one encoder with
unchanged configuration appends the identical document bytes twice, and
Encode leaves the configuration untouched; rendering is a pure function of
the tree and the configuration. -/
theorem C9_determinism_purity :
    ∀ (e : Encoder) (r : Node) (d : String),
      encodeDoc e.config r = some d →
      ((e.encode r).encode r).out = e.out ++ d ++ d ∧
      ((e.encode r).encode r).config = e.config := by
  intro e r d h
  simp [Encoder.encode, h, String.append_assoc]

/-- C9 witness: the determinism theorem applied to the scalar test tree. -/
theorem C9_determinism_purity_witness :
    (((NewEncoder []).encode scalarRoot).encode scalarRoot).out =
      (NewEncoder []).out ++ "---\nScalar: 42\n" ++ "---\nScalar: 42\n" ∧
    (((NewEncoder []).encode scalarRoot).encode scalarRoot).config = (NewEncoder []).config :=
  C9_determinism_purity (NewEncoder []) scalarRoot "---\nScalar: 42\n" (by rfl)

/-- Every entry rendered without a pending marker produces a line that
starts with the indentation at the entry column, the key and the colon. -/
theorem renderEntry_key_line (cfg : Config) (c : Nat) (key : String) (n : Node) :
    ∃ rest, spaces c ++ key ++ ":" ++ rest ∈ renderEntry cfg c none key n := by
  cases n with
  | scalar v com cond =>
    by_cases h : com = "" ∧ cond = ""
    · refine ⟨" " ++ v, ?_⟩
      simp only [renderEntry, if_pos h, keyLine, List.mem_singleton]
      simp only [String.append_assoc]
    · refine ⟨" " ++ v, ?_⟩
      simp only [renderEntry, if_neg h]
      refine List.mem_append.mpr (Or.inl (List.mem_append.mpr (Or.inr ?_)))
      simp only [List.mem_singleton]
      apply String.ext
      simp [String.data_append]
  | list ns com cond =>
    by_cases h : com = "" ∧ cond = ""
    · exact ⟨"", by simp only [renderEntry, if_pos h, keyLine]; simp [String.append_empty]⟩
    · refine ⟨"", ?_⟩
      simp only [renderEntry, if_neg h]
      refine List.mem_append.mpr (Or.inl (List.mem_append.mpr (Or.inr ?_)))
      simp [String.append_empty]
  | object es com cond =>
    by_cases h : com = "" ∧ cond = ""
    · exact ⟨"", by simp only [renderEntry, if_pos h, keyLine]; simp [String.append_empty]⟩
    · refine ⟨"", ?_⟩
      simp only [renderEntry, if_neg h]
      refine List.mem_append.mpr (Or.inl (List.mem_append.mpr (Or.inr ?_)))
      simp [String.append_empty]

/-- Every key of an Object appears on a line at the entry column. -/
theorem renderEntries_key_line (cfg : Config) (c : Nat) (es : EntryList) (k0 : String)
    (hk : k0 ∈ EntryList.keys es) :
    ∃ rest, spaces c ++ k0 ++ ":" ++ rest ∈ renderEntries cfg c none es := by
  cases es with
  | nil => cases hk
  | cons k n t =>
    simp only [EntryList.keys, List.mem_cons] at hk
    rcases hk with h | h
    · subst h
      obtain ⟨rest, hr⟩ := renderEntry_key_line cfg c k0 n
      exact ⟨rest, by simp only [renderEntries]; exact List.mem_append.mpr (Or.inl hr)⟩
    · obtain ⟨rest, hr⟩ := renderEntries_key_line cfg c t k0 h
      exact ⟨rest, by simp only [renderEntries]; exact List.mem_append.mpr (Or.inr hr)⟩

/-- Every entry occupies at least one output line. -/
theorem renderEntry_length_pos (cfg : Config) (c : Nat) (pending : Option String)
    (key : String) (n : Node) : 1 ≤ (renderEntry cfg c pending key n).length := by
  cases n with
  | scalar v com cond =>
    by_cases h : com = "" ∧ cond = ""
    · simp [renderEntry, h]
    · simp [renderEntry, h]
      omega
  | list ns com cond =>
    by_cases h : com = "" ∧ cond = ""
    · simp [renderEntry, h]
    · simp [renderEntry, h]
      omega
  | object es com cond =>
    by_cases h : com = "" ∧ cond = ""
    · simp [renderEntry, h]
    · simp [renderEntry, h]
      omega

/-- An Object renders at least one line per entry. -/
theorem renderEntries_length (cfg : Config) (c : Nat) (pending : Option String)
    (es : EntryList) :
    EntryList.count es ≤ (renderEntries cfg c pending es).length := by
  cases es with
  | nil => simp [EntryList.count, renderEntries]
  | cons k n t =>
    simp only [EntryList.count, renderEntries, List.length_append]
    have h1 := renderEntry_length_pos cfg c pending k n
    have h2 := renderEntries_length cfg c none t
    omega

/-- C3: every entry of a Mapping rendered under an owning key at column c
is rendered on at least one line of its own, its key placed exactly one
configured indent unit deeper than c; the entries of the document root
Mapping sit at column zero regardless of the configured indent. -/
theorem C3_mapping_entry_columns :
    (∀ (cfg : Config) (c : Nat) (key : String) (es : EntryList) (com cond : String)
      (k0 : String), k0 ∈ EntryList.keys es →
      ∃ rest, spaces (c + cfg.indent) ++ k0 ++ ":" ++ rest ∈
        renderEntry cfg c none key (.object es com cond)) ∧
    (∀ (cfg : Config) (c : Nat) (pending : Option String) (es : EntryList),
      EntryList.count es ≤ (renderEntries cfg c pending es).length) ∧
    (∀ (cfg : Config) (es : EntryList) (com cond : String) (ls : List String) (k0 : String),
      renderRoot cfg (.object es com cond) = some ls →
      k0 ∈ EntryList.keys es →
      ∃ rest, k0 ++ ":" ++ rest ∈ ls) := by
  refine ⟨?_, renderEntries_length, ?_⟩
  · intro cfg c key es com cond k0 hk
    obtain ⟨rest, hr⟩ := renderEntries_key_line cfg (c + cfg.indent) es k0 hk
    refine ⟨rest, ?_⟩
    by_cases h : com = "" ∧ cond = ""
    · simp only [renderEntry, if_pos h]
      exact List.mem_cons_of_mem _ hr
    · simp only [renderEntry, if_neg h]
      refine List.mem_append.mpr (Or.inl (List.mem_append.mpr (Or.inr ?_)))
      exact List.mem_cons_of_mem _ hr
  · intro cfg es com cond ls k0 hls hk
    obtain ⟨rest, hr⟩ := renderEntries_key_line cfg 0 es k0 hk
    simp only [renderRoot, Option.some.injEq] at hls
    subst hls
    refine ⟨rest, List.mem_append.mpr (Or.inl (List.mem_append.mpr (Or.inr ?_)))⟩
    have : spaces 0 ++ k0 ++ ":" ++ rest = k0 ++ ":" ++ rest := by
      simp [spaces_zero, String.empty_append]
    rwa [this] at hr

/-- Every packed line either fits the word budget (and is nonempty) or is
the incoming current line or one of the words. -/
theorem packLine_mem (b : Nat) (ws : List String) (cur : String) (l : String)
    (hl : l ∈ packLine b cur ws) :
    (1 ≤ l.length ∧ l.length ≤ b) ∨ l = cur ∨ l ∈ ws := by
  induction ws generalizing cur with
  | nil =>
    simp only [packLine, List.mem_singleton] at hl
    exact Or.inr (Or.inl hl)
  | cons w t ih =>
    simp only [packLine] at hl
    by_cases hfit : cur.length + 1 + w.length ≤ b
    · rw [if_pos hfit] at hl
      rcases ih (cur ++ " " ++ w) hl with h | h | h
      · exact Or.inl h
      · subst h
        have h1 : (cur ++ " " ++ w).length = cur.length + 1 + w.length := by
          simp [String.length_append, show (" " : String).length = 1 from rfl]
        exact Or.inl ⟨by omega, by omega⟩
      · exact Or.inr (Or.inr (List.mem_cons_of_mem _ h))
    · rw [if_neg hfit] at hl
      rcases List.mem_cons.mp hl with h | h
      · exact Or.inr (Or.inl h)
      · rcases ih w h with h2 | h2 | h2
        · exact Or.inl h2
        · exact Or.inr (Or.inr (List.mem_cons.mpr (Or.inl h2)))
        · exact Or.inr (Or.inr (List.mem_cons_of_mem _ h2))

/-- Every packed line fits the budget or is a single original word. -/
theorem packWords_mem (b : Nat) (ws : List String) (l : String)
    (hl : l ∈ packWords b ws) :
    (1 ≤ l.length ∧ l.length ≤ b) ∨ l ∈ ws := by
  cases ws with
  | nil => cases hl
  | cons w t =>
    rcases packLine_mem b t w l hl with h | h | h
    · exact Or.inl h
    · exact Or.inr (List.mem_cons.mpr (Or.inl h))
    · exact Or.inr (List.mem_cons_of_mem _ h)

/-- Packing always produces at least one line. -/
theorem packLine_ne_nil (b : Nat) (ws : List String) (cur : String) :
    packLine b cur ws ≠ [] := by
  induction ws generalizing cur with
  | nil => simp [packLine]
  | cons w t ih =>
    simp only [packLine]
    by_cases hfit : cur.length + 1 + w.length ≤ b
    · rw [if_pos hfit]; exact ih _
    · rw [if_neg hfit]; simp

/-- Unfolding of the single-space join on a cons with nonempty tail. -/
theorem joinSp_cons (w : String) (rest : List String) (h : rest ≠ []) :
    joinSp (w :: rest) = w ++ " " ++ joinSp rest := by
  cases rest with
  | nil => exact absurd rfl h
  | cons x t => rfl

/-- Joining after extending the current line by one word equals joining
with the word as a separate element. -/
theorem joinSp_glue (a b2 : String) (t : List String) :
    joinSp ((a ++ " " ++ b2) :: t) = a ++ " " ++ joinSp (b2 :: t) := by
  cases t with
  | nil => rfl
  | cons x t2 =>
    rw [joinSp_cons _ (x :: t2) (by simp), joinSp_cons b2 (x :: t2) (by simp)]
    simp [String.append_assoc]

/-- Greedy packing preserves the words and their order: rejoining the
packed lines with single spaces restores the original word sequence. -/
theorem joinSp_packLine (b : Nat) (ws : List String) (cur : String) :
    joinSp (packLine b cur ws) = joinSp (cur :: ws) := by
  induction ws generalizing cur with
  | nil => rfl
  | cons w t ih =>
    simp only [packLine]
    by_cases hfit : cur.length + 1 + w.length ≤ b
    · rw [if_pos hfit, ih (cur ++ " " ++ w), joinSp_glue]
      exact (joinSp_cons cur (w :: t) (by simp)).symm
    · rw [if_neg hfit, joinSp_cons cur (packLine b w t) (packLine_ne_nil b t w), ih w]
      exact (joinSp_cons cur (w :: t) (by simp)).symm



/-- C4: comment wrapping with a positive budget greedily packs the
whitespace-separated words so that indentation plus the two-character
marker plus the text fits the budget, an overlong word sits alone on its
line untruncated, word order and content are preserved with single
inter-word spaces, a budget of zero disables wrapping, and the boundary
cases behave exactly as stated. -/
theorem C4_comment_wrap_budget :
    (∀ (ind : Nat) (s : String), s ≠ "" → wrapLine 0 ind s = [s]) ∧
    (∀ (wrap ind : Nat) (s : String) (l : String), wrap ≠ 0 → s ≠ "" →
      l ∈ wrapLine wrap ind s → ind + 2 + l.length ≤ wrap ∨ l ∈ words s) ∧
    (∀ (wrap ind : Nat) (s : String), wrap ≠ 0 → s ≠ "" →
      joinSp (wrapLine wrap ind s) = joinSp (words s)) ∧
    wrapLine 24 0 "12 12 12 12 12 12 12 1" = ["12 12 12 12 12 12 12 1"] ∧
    wrapLine 24 0 "12 12 12 12 12 12 12 12" = ["12 12 12 12 12 12 12", "12"] ∧
    wrapLine 24 0 (rep "x" 50) = [rep "x" 50] := by
  refine ⟨?_, ?_, ?_, rfl, rfl, rfl⟩
  · intro ind s hs
    simp [wrapLine, hs]
  · intro wrap ind s l hw hs hl
    simp only [wrapLine, if_neg hs, if_neg hw] at hl
    rcases packWords_mem _ _ _ hl with ⟨h1, h2⟩ | h
    · left; omega
    · right; exact h
  · intro wrap ind s hw hs
    simp only [wrapLine, if_neg hs, if_neg hw]
    cases hws : words s with
    | nil => simp [packWords]
    | cons w t =>
      simp only [packWords]
      exact joinSp_packLine _ t w

/-- C10: a root Mapping carrying a comment and a condition renders its
comment lines and opening directive at column zero immediately after the
document start marker, its entries at column zero after them, and the
closing directive as the final line of the document. -/
theorem C10_root_annotations :
    ∀ (cfg : Config) (es : EntryList) (com cond : String),
      com ≠ "" → cond ≠ "" →
      renderRoot cfg (.object es com cond) =
        some ((wrapComment cfg.wrap 0 com).map commentText ++
          (("\x7b\x7b- " ++ cond ++ " \x7d\x7d") ::
            (renderEntries cfg 0 none es ++ ["\x7b\x7b- end \x7d\x7d"]))) ∧
      encodeDoc cfg (.object es com cond) =
        some ("---\n" ++ joinLines ((wrapComment cfg.wrap 0 com).map commentText ++
          (("\x7b\x7b- " ++ cond ++ " \x7d\x7d") ::
            (renderEntries cfg 0 none es ++ ["\x7b\x7b- end \x7d\x7d"])))) := by
  intro cfg es com cond hcom hcond
  have h1 : renderRoot cfg (.object es com cond) =
      some ((wrapComment cfg.wrap 0 com).map commentText ++
        (("\x7b\x7b- " ++ cond ++ " \x7d\x7d") ::
          (renderEntries cfg 0 none es ++ ["\x7b\x7b- end \x7d\x7d"]))) := by
    simp only [renderRoot, annPrologue, commentPart, if_neg hcom, commentBlock_none, annEpilogue,
      if_neg hcond, openDirective, closeDirective, spaces_zero]
    simp [String.empty_append, List.append_assoc]
  exact ⟨h1, by simp [encodeDoc, h1]⟩

/-- C3 witness: the column theorem applied to the object-of-object test
tree entries. -/
theorem C3_mapping_entry_columns_witness :
    ∃ rest, spaces (0 + 2) ++ "foo" ++ ":" ++ rest ∈
      renderEntry ⟨2, 0⟩ 0 none "Object"
        (.object (.cons "foo" (sc "1") (.cons "bar" (sc "2") .nil)) "" "") :=
  C3_mapping_entry_columns.1 ⟨2, 0⟩ 0 "Object"
    (.cons "foo" (sc "1") (.cons "bar" (sc "2") .nil)) "" "" "foo" (by decide)

/-- C4 witness: the wrap theorem applied to a budget of zero with a
concrete line. -/
theorem C4_comment_wrap_budget_witness :
    wrapLine 0 5 "some comment text" = ["some comment text"] :=
  C4_comment_wrap_budget.1 5 "some comment text" (by decide)

/-- C10 witness: the root annotation theorem applied to the annotated
scalar test tree. -/
theorem C10_root_annotations_witness :
    renderRoot ⟨2, 0⟩ (.object (.cons "Scalar" (sc "42") .nil) "comment 1" "if condition 1") =
      some ((wrapComment 0 0 "comment 1").map commentText ++
        (("\x7b\x7b- " ++ "if condition 1" ++ " \x7d\x7d") ::
          (renderEntries ⟨2, 0⟩ 0 none (.cons "Scalar" (sc "42") .nil) ++
            ["\x7b\x7b- end \x7d\x7d"]))) ∧
    encodeDoc ⟨2, 0⟩ (.object (.cons "Scalar" (sc "42") .nil) "comment 1" "if condition 1") =
      some ("---\n" ++ joinLines ((wrapComment 0 0 "comment 1").map commentText ++
        (("\x7b\x7b- " ++ "if condition 1" ++ " \x7d\x7d") ::
          (renderEntries ⟨2, 0⟩ 0 none (.cons "Scalar" (sc "42") .nil) ++
            ["\x7b\x7b- end \x7d\x7d"])))) :=
  C10_root_annotations ⟨2, 0⟩ (.cons "Scalar" (sc "42") .nil) "comment 1" "if condition 1"
    (by decide) (by decide)

/-- The line with its leading space indentation removed. -/
def dropIndent (l : String) : String := String.mk (l.data.dropWhile (fun c => c = ' '))

/-- Recognizes an emitted closing conditional directive line. -/
def isCloseLine (l : String) : Bool := dropIndent l = "\x7b\x7b- end \x7d\x7d"

/-- Recognizes an emitted opening conditional directive line. -/
def isOpenLine (l : String) : Bool :=
  ("\x7b\x7b- ".data.isPrefixOf (dropIndent l).data) && !(isCloseLine l)

/-- Directive depth change contributed by one output line. -/
def dirDelta (l : String) : Int := if isCloseLine l then -1 else if isOpenLine l then 1 else 0

/-- Net directive depth of a stream of lines. -/
def dirSum (ls : List String) : Int := (ls.map dirDelta).sum

/-- Balanced and properly nested directive stream: net depth zero and no
prefix closes more directives than were opened. -/
def balancedLines (ls : List String) : Prop :=
  dirSum ls = 0 ∧ ∀ n, 0 ≤ dirSum (ls.take n)

theorem dropWhile_replicate_space (n : Nat) (l : List Char) :
    List.dropWhile (fun c => decide (c = ' ')) (List.replicate n ' ' ++ l) =
      List.dropWhile (fun c => decide (c = ' ')) l := by
  induction n with
  | zero => simp
  | succ k ih => simp [List.replicate_succ, List.dropWhile, ih]

/-- A line whose first character after the indentation is neither a space
nor an opening brace contributes no directive depth change. -/
theorem dirDelta_data (l : String) (a : Nat) (c0 : Char) (t : List Char)
    (hdata : l.data = List.replicate a ' ' ++ c0 :: t)
    (hsp : c0 ≠ ' ') (hbr : c0 ≠ '\x7b') : dirDelta l = 0 := by
  have hdi : (dropIndent l).data = c0 :: t := by
    simp only [dropIndent, hdata, dropWhile_replicate_space]
    simp [List.dropWhile, hsp]
  have hclose : isCloseLine l = false := by
    simp only [isCloseLine, decide_eq_false_iff_not]
    intro h
    have := congrArg String.data h
    rw [hdi] at this
    simp at this
    exact hbr this.1
  have hopen : isOpenLine l = false := by
    simp only [isOpenLine, hdi, Bool.and_eq_false_iff]
    left
    simp [List.isPrefixOf]
    intro h
    exact absurd h.symm hbr
  simp [dirDelta, hclose, hopen]



theorem spaces_data (n : Nat) : (spaces n).data = List.replicate n ' ' := rfl

theorem dirDelta_close (col : Nat) : dirDelta (closeDirective col) = -1 := by
  have hdi : dropIndent (closeDirective col) = "\x7b\x7b- end \x7d\x7d" := by
    apply String.ext
    simp only [dropIndent, closeDirective, String.data_append, spaces_data,
      dropWhile_replicate_space]
    decide
  simp [dirDelta, isCloseLine, hdi]

theorem dirDelta_open (col : Nat) (cond : String) (h : cond ≠ "end") :
    dirDelta (openDirective col cond) = 1 := by
  have h1 : ("\x7b\x7b- " : String).data = ['\x7b', '\x7b', '-', ' '] := rfl
  have h2 : (" \x7d\x7d" : String).data = [' ', '\x7d', '\x7d'] := rfl
  have hdi : (dropIndent (openDirective col cond)).data =
      '\x7b' :: '\x7b' :: '-' :: ' ' :: (cond.data ++ [' ', '\x7d', '\x7d']) := by
    simp only [dropIndent, openDirective, String.data_append, spaces_data, h1, h2,
      List.append_assoc, List.cons_append, List.nil_append, dropWhile_replicate_space]
    simp [List.dropWhile]
  have hclose : isCloseLine (openDirective col cond) = false := by
    simp only [isCloseLine, decide_eq_false_iff_not]
    intro hceq
    have hd := congrArg String.data hceq
    rw [hdi] at hd
    have hd2 : cond.data ++ [' ', '\x7d', '\x7d'] = ['e', 'n', 'd', ' ', '\x7d', '\x7d'] := by
      have : ("\x7b\x7b- end \x7d\x7d" : String).data =
        ['\x7b', '\x7b', '-', ' ', 'e', 'n', 'd', ' ', '\x7d', '\x7d'] := rfl
      rw [this] at hd
      simpa using hd
    have hd3 : cond.data = ['e', 'n', 'd'] :=
      (@List.append_inj' Char cond.data [' ', '\x7d', '\x7d'] ['e', 'n', 'd']
        [' ', '\x7d', '\x7d'] hd2 rfl).1
    exact h (String.ext hd3)
  have hopen : isOpenLine (openDirective col cond) = true := by
    simp only [isOpenLine, hdi, hclose, Bool.not_false, Bool.and_true, h1]
    simp [List.isPrefixOf]
  simp [dirDelta, hclose, hopen]

/-- Shape of every pending marker line: indentation, the two-character item
marker, then an arbitrary tail. -/
def markerShaped (p : String) : Prop := ∃ a b, p = spaces a ++ "- " ++ b

/-- A pending context is either absent or a marker-shaped line. -/
def pendingShaped : Option String → Prop
  | none => True
  | some p => markerShaped p

theorem dirDelta_marker_append (p s : String) (h : markerShaped p) :
    dirDelta (p ++ s) = 0 := by
  obtain ⟨a, b, rfl⟩ := h
  apply dirDelta_data _ a '-' (' ' :: (b.data ++ s.data))
  · simp [String.data_append, spaces_data, List.append_assoc]
  · decide
  · decide

theorem dirDelta_marker (p : String) (h : markerShaped p) : dirDelta p = 0 := by
  have := dirDelta_marker_append p "" h
  rwa [String.append_empty] at this

theorem dirDelta_comment (col : Nat) (l : String) :
    dirDelta (spaces col ++ commentText l) = 0 := by
  by_cases hl : l = ""
  · apply dirDelta_data _ col '#' []
    · simp [commentText, hl, String.data_append, spaces_data]
    · decide
    · decide
  · apply dirDelta_data _ col '#' (' ' :: l.data)
    · simp [commentText, hl, String.data_append, spaces_data]
    · decide
    · decide



theorem dirDelta_of_head (l : String) (c0 : Char) (t : List Char)
    (hdi : (dropIndent l).data = c0 :: t) (hbr : c0 ≠ '\x7b') : dirDelta l = 0 := by
  have hclose : isCloseLine l = false := by
    simp only [isCloseLine, decide_eq_false_iff_not]
    intro h
    have := congrArg String.data h
    rw [hdi] at this
    simp at this
    exact hbr this.1
  have hopen : isOpenLine l = false := by
    simp only [isOpenLine, hdi, Bool.and_eq_false_iff]
    left
    simp [List.isPrefixOf]
    intro h
    exact absurd h.symm hbr
  simp [dirDelta, hclose, hopen]

theorem dirDelta_key (c : Nat) (key s : String)
    (hkey : (dropIndent key).data.head? ≠ some '\x7b')
    (t : List Char) (hs : s.data = ':' :: t) :
    dirDelta (spaces c ++ key ++ s) = 0 := by
  have hdata : (spaces c ++ key ++ s).data =
      List.replicate c ' ' ++ (key.data ++ (':' :: t)) := by
    simp [String.data_append, spaces_data, hs, List.append_assoc]
  cases hk : List.dropWhile (fun c => decide (c = ' ')) key.data with
  | nil =>
    apply dirDelta_of_head _ ':' t _ (by decide)
    simp only [dropIndent, hdata, dropWhile_replicate_space, List.dropWhile_append, hk,
      List.isEmpty_nil, if_true]
    simp [List.dropWhile]
  | cons d dt =>
    have hd : d ≠ '\x7b' := by
      intro hcontra
      apply hkey
      simp only [dropIndent, hk, hcontra]
      rfl
    apply dirDelta_of_head _ d (dt ++ ':' :: t) _ hd
    simp only [dropIndent, hdata, dropWhile_replicate_space, List.dropWhile_append, hk]
    simp

theorem dirDelta_rtrim (p : String) (h : markerShaped p) : dirDelta (rtrim p) = 0 := by
  obtain ⟨a, b, rfl⟩ := h
  have hdata : (spaces a ++ "- " ++ b).data =
      List.replicate a ' ' ++ '-' :: (' ' :: b.data) := by
    simp [String.data_append, spaces_data, List.append_assoc]
  have hrev : ((spaces a ++ "- " ++ b).data).reverse =
      (' ' :: b.data).reverse ++ '-' :: List.replicate a ' ' := by
    rw [hdata]
    simp [List.reverse_append, List.reverse_replicate, List.append_assoc]
  cases hsplit : List.dropWhile (fun c => decide (c = ' ')) (' ' :: b.data).reverse with
  | nil =>
    apply dirDelta_data _ a '-' []
    · simp only [rtrim, hrev, List.dropWhile_append, hsplit, List.isEmpty_nil, if_true]
      simp [List.dropWhile, List.reverse_replicate]
    · decide
    · decide
  | cons d dt =>
    apply dirDelta_data _ a '-' ((d :: dt).reverse)
    · simp only [rtrim, hrev, List.dropWhile_append, hsplit]
      simp [List.reverse_append, List.reverse_replicate, List.append_assoc]
    · decide
    · decide

theorem markerLine_shaped (m : Nat) (pending : Option String) (hp : pendingShaped pending) :
    markerShaped (markerLine m pending) := by
  cases pending with
  | none => exact ⟨m, "", by simp [markerLine, String.append_empty]⟩
  | some p =>
    obtain ⟨a, b, rfl⟩ := hp
    refine ⟨a, b ++ (spaces (m - (spaces a ++ "- " ++ b).length) ++ "- "), ?_⟩
    simp [markerLine, String.append_assoc]

theorem freshMarker_shaped (m : Nat) : markerShaped (spaces m ++ "- ") :=
  ⟨m, "", by simp [String.append_empty]⟩

theorem dirDelta_commentBlock (cfg : Config) (col : Nat) (pending : Option String)
    (com : String) (hp : pendingShaped pending) :
    ∀ l ∈ commentBlock cfg col pending com, dirDelta l = 0 := by
  intro l hl
  cases pending with
  | none =>
    simp only [commentBlock] at hl
    obtain ⟨x, _, rfl⟩ := List.mem_map.mp hl
    exact dirDelta_comment col x
  | some p =>
    cases hw : wrapComment cfg.wrap col com with
    | nil =>
      unfold commentBlock at hl
      rw [hw] at hl
      simp at hl
    | cons x xs =>
      unfold commentBlock at hl
      rw [hw] at hl
      rcases List.mem_cons.mp hl with h | h
      · subst h
        exact dirDelta_marker_append p (commentText x) hp
      · obtain ⟨y, _, rfl⟩ := List.mem_map.mp h
        exact dirDelta_comment col y



theorem dirSum_append (a b : List String) : dirSum (a ++ b) = dirSum a + dirSum b := by
  simp [dirSum]

theorem dirSum_cons (l : String) (ls : List String) :
    dirSum (l :: ls) = dirDelta l + dirSum ls := by
  simp [dirSum]

theorem dirSum_zeros (a : List String) (h : ∀ l ∈ a, dirDelta l = 0) : dirSum a = 0 := by
  unfold dirSum
  apply List.sum_eq_zero
  intro x hx
  obtain ⟨l, hl, rfl⟩ := List.mem_map.mp hx
  exact h l hl

theorem balanced_nil : balancedLines [] := ⟨rfl, fun n => by simp [dirSum]⟩

theorem balanced_zeros (a : List String) (h : ∀ l ∈ a, dirDelta l = 0) :
    balancedLines a := by
  refine ⟨dirSum_zeros a h, fun n => ?_⟩
  rw [dirSum_zeros _ (fun l hl => h l (List.take_subset n a hl))]

theorem balanced_append (a b : List String) (ha : balancedLines a) (hb : balancedLines b) :
    balancedLines (a ++ b) := by
  refine ⟨?_, fun n => ?_⟩
  · rw [dirSum_append, ha.1, hb.1]
    omega
  · rw [List.take_append_eq_append_take, dirSum_append]
    have h1 := ha.2 n
    have h2 := hb.2 (n - a.length)
    omega

theorem balanced_wrap (pre mid : List String) (o c : String)
    (hpre : ∀ l ∈ pre, dirDelta l = 0) (hmid : balancedLines mid)
    (ho : dirDelta o = 1) (hc : dirDelta c = -1) :
    balancedLines (pre ++ (o :: (mid ++ [c]))) := by
  have htail : ∀ m, 0 ≤ dirSum (List.take m (o :: (mid ++ [c]))) := by
    intro m
    cases m with
    | zero => simp [dirSum]
    | succ m2 =>
      rw [List.take_succ_cons, dirSum_cons, ho, List.take_append_eq_append_take,
        dirSum_append]
      have h1 := hmid.2 m2
      have h2 : dirSum (List.take (m2 - mid.length) [c]) = 0 ∨
          dirSum (List.take (m2 - mid.length) [c]) = -1 := by
        cases hj : m2 - mid.length with
        | zero => left; simp [dirSum]
        | succ j =>
          right
          have : List.take (j + 1) [c] = [c] := by simp
          rw [this, dirSum_cons, hc]
          simp [dirSum]
      omega
  refine ⟨?_, fun n => ?_⟩
  · rw [dirSum_append, dirSum_zeros pre hpre, dirSum_cons, ho, dirSum_append, hmid.1,
      dirSum_cons, hc]
    simp [dirSum]
  · rw [List.take_append_eq_append_take, dirSum_append,
      dirSum_zeros _ (fun l hl => hpre l (List.take_subset n pre hl))]
    have := htail (n - pre.length)
    omega

theorem dirDelta_commentPart (cfg : Config) (col : Nat) (pending : Option String)
    (com : String) (hp : pendingShaped pending) :
    ∀ l ∈ commentPart cfg col pending com, dirDelta l = 0 := by
  intro l hl
  by_cases hcom : com = ""
  · rw [commentPart.eq_def, if_pos hcom] at hl
    cases pending with
    | none => simp at hl
    | some p =>
      simp only [List.mem_singleton] at hl
      subst hl
      exact dirDelta_rtrim p hp
  · rw [commentPart.eq_def, if_neg hcom] at hl
    exact dirDelta_commentBlock cfg col pending com hp l hl

theorem balanced_annotated (cfg : Config) (col : Nat) (pending : Option String)
    (com cond : String) (content : List String)
    (hp : pendingShaped pending) (hcond : cond ≠ "end")
    (hcontent : balancedLines content) :
    balancedLines (annPrologue cfg col pending com cond ++ content ++ annEpilogue col cond) := by
  unfold annPrologue annEpilogue
  by_cases hcd : cond = ""
  · simp only [if_pos hcd, List.append_nil]
    exact balanced_append _ _ (balanced_zeros _ (dirDelta_commentPart cfg col pending com hp))
      hcontent
  · simp only [if_neg hcd]
    have hshape : (commentPart cfg col pending com ++ [openDirective col cond]) ++ content ++
          [closeDirective col] =
        commentPart cfg col pending com ++
          (openDirective col cond :: (content ++ [closeDirective col])) := by
      simp [List.append_assoc]
    rw [hshape]
    exact balanced_wrap _ content _ _ (dirDelta_commentPart cfg col pending com hp) hcontent
      (dirDelta_open col cond hcond) (dirDelta_close col)



mutual

/-- Cleanliness of a node: no condition text is exactly the word end. -/
def cleanNode : Node → Bool
  | .scalar _ _ cond => cond != "end"
  | .list ns _ cond => (cond != "end") && cleanList ns
  | .object es _ cond => (cond != "end") && cleanEntries es

/-- Cleanliness of list members. -/
def cleanList : NodeList → Bool
  | .nil => true
  | .cons n t => cleanNode n && cleanList t

/-- Cleanliness of object entries: additionally no key may start, after its
leading spaces, with an opening brace. -/
def cleanEntries : EntryList → Bool
  | .nil => true
  | .cons k n t => ((dropIndent k).data.head? != some '\x7b') && cleanNode n && cleanEntries t

end

theorem dirDelta_keyLine_append (c : Nat) (pending : Option String)
    (key s : String) (hp : pendingShaped pending)
    (hkey : (dropIndent key).data.head? ≠ some '\x7b') :
    dirDelta (keyLine c pending key ++ s) = 0 := by
  cases pending with
  | none =>
    have hform : keyLine c none key ++ s = spaces c ++ key ++ (":" ++ s) := by
      simp [keyLine, String.append_assoc]
    rw [hform]
    exact dirDelta_key c key (":" ++ s) hkey s.data (by simp [String.data_append])
  | some p =>
    obtain ⟨a, b, rfl⟩ := hp
    have hform : keyLine c (some (spaces a ++ "- " ++ b)) key ++ s =
        (spaces a ++ "- " ++ b) ++ (key ++ (":" ++ s)) := by
      simp [keyLine, String.append_assoc]
    rw [hform]
    exact dirDelta_marker_append _ _ ⟨a, b, rfl⟩

mutual

theorem balanced_renderItem (cfg : Config) (m : Nat) (pending : Option String) (n : Node)
    (hp : pendingShaped pending) (hn : cleanNode n = true) :
    balancedLines (renderItem cfg m pending n) := by
  cases n with
  | scalar v com cond =>
    simp only [cleanNode, bne_iff_ne, ne_eq] at hn
    by_cases h : com = "" ∧ cond = ""
    · simp only [renderItem, if_pos h]
      refine balanced_zeros _ ?_
      intro l hl
      simp only [List.mem_singleton] at hl
      subst hl
      exact dirDelta_marker_append _ _ (markerLine_shaped m pending hp)
    · simp only [renderItem, if_neg h]
      refine balanced_annotated cfg m pending com cond _ hp hn ?_
      refine balanced_zeros _ ?_
      intro l hl
      simp only [List.mem_singleton] at hl
      subst hl
      exact dirDelta_marker_append (spaces m ++ "- ") v (freshMarker_shaped m)
  | list ns com cond =>
    simp only [cleanNode, Bool.and_eq_true, bne_iff_ne, ne_eq] at hn
    by_cases h : com = "" ∧ cond = ""
    · simp only [renderItem, if_pos h]
      exact balanced_renderItems cfg _ _ ns (markerLine_shaped m pending hp) hn.2
    · simp only [renderItem, if_neg h]
      exact balanced_annotated cfg m pending com cond _ hp hn.1
        (balanced_renderItems cfg _ _ ns (freshMarker_shaped m) hn.2)
  | object es com cond =>
    simp only [cleanNode, Bool.and_eq_true, bne_iff_ne, ne_eq] at hn
    by_cases h : com = "" ∧ cond = ""
    · simp only [renderItem, if_pos h]
      exact balanced_renderEntries cfg _ _ es (markerLine_shaped m pending hp) hn.2
    · simp only [renderItem, if_neg h]
      exact balanced_annotated cfg m pending com cond _ hp hn.1
        (balanced_renderEntries cfg _ _ es (freshMarker_shaped m) hn.2)

theorem balanced_renderItems (cfg : Config) (m : Nat) (pending : Option String)
    (ns : NodeList) (hp : pendingShaped pending) (hn : cleanList ns = true) :
    balancedLines (renderItems cfg m pending ns) := by
  cases ns with
  | nil => exact balanced_nil
  | cons n t =>
    simp only [cleanList, Bool.and_eq_true] at hn
    exact balanced_append _ _ (balanced_renderItem cfg m pending n hp hn.1)
      (balanced_renderItems cfg m none t trivial hn.2)

theorem balanced_renderEntry (cfg : Config) (c : Nat) (pending : Option String)
    (key : String) (n : Node) (hp : pendingShaped pending)
    (hkey : (dropIndent key).data.head? ≠ some '\x7b') (hn : cleanNode n = true) :
    balancedLines (renderEntry cfg c pending key n) := by
  cases n with
  | scalar v com cond =>
    simp only [cleanNode, bne_iff_ne, ne_eq] at hn
    by_cases h : com = "" ∧ cond = ""
    · simp only [renderEntry, if_pos h]
      refine balanced_zeros _ ?_
      intro l hl
      simp only [List.mem_singleton] at hl
      subst hl
      have hform : keyLine c pending key ++ " " ++ v = keyLine c pending key ++ (" " ++ v) := by
        simp [String.append_assoc]
      rw [hform]
      exact dirDelta_keyLine_append c pending key _ hp hkey
    · simp only [renderEntry, if_neg h]
      refine balanced_annotated cfg c pending com cond _ hp hn ?_
      refine balanced_zeros _ ?_
      intro l hl
      simp only [List.mem_singleton] at hl
      subst hl
      have hform : spaces c ++ key ++ ": " ++ v = spaces c ++ key ++ (": " ++ v) := by
        simp [String.append_assoc]
      rw [hform]
      exact dirDelta_key c key _ hkey (' ' :: v.data) rfl
  | list ns com cond =>
    simp only [cleanNode, Bool.and_eq_true, bne_iff_ne, ne_eq] at hn
    by_cases h : com = "" ∧ cond = ""
    · simp only [renderEntry, if_pos h]
      have hsplit : keyLine c pending key :: renderItems cfg (c + cfg.indent - 2) none ns =
          [keyLine c pending key] ++ renderItems cfg (c + cfg.indent - 2) none ns := rfl
      rw [hsplit]
      refine balanced_append _ _ (balanced_zeros _ ?_)
        (balanced_renderItems cfg _ none ns trivial hn.2)
      intro l hl
      simp only [List.mem_singleton] at hl
      subst hl
      have h0 := dirDelta_keyLine_append c pending key "" hp hkey
      rwa [String.append_empty] at h0
    · simp only [renderEntry, if_neg h]
      refine balanced_annotated cfg c pending com cond _ hp hn.1 ?_
      have hsplit : (spaces c ++ key ++ ":") :: renderItems cfg (c + cfg.indent - 2) none ns =
          [spaces c ++ key ++ ":"] ++ renderItems cfg (c + cfg.indent - 2) none ns := rfl
      rw [hsplit]
      refine balanced_append _ _ (balanced_zeros _ ?_)
        (balanced_renderItems cfg _ none ns trivial hn.2)
      intro l hl
      simp only [List.mem_singleton] at hl
      subst hl
      exact dirDelta_key c key ":" hkey [] rfl
  | object es com cond =>
    simp only [cleanNode, Bool.and_eq_true, bne_iff_ne, ne_eq] at hn
    by_cases h : com = "" ∧ cond = ""
    · simp only [renderEntry, if_pos h]
      have hsplit : keyLine c pending key :: renderEntries cfg (c + cfg.indent) none es =
          [keyLine c pending key] ++ renderEntries cfg (c + cfg.indent) none es := rfl
      rw [hsplit]
      refine balanced_append _ _ (balanced_zeros _ ?_)
        (balanced_renderEntries cfg _ none es trivial hn.2)
      intro l hl
      simp only [List.mem_singleton] at hl
      subst hl
      have h0 := dirDelta_keyLine_append c pending key "" hp hkey
      rwa [String.append_empty] at h0
    · simp only [renderEntry, if_neg h]
      refine balanced_annotated cfg c pending com cond _ hp hn.1 ?_
      have hsplit : (spaces c ++ key ++ ":") :: renderEntries cfg (c + cfg.indent) none es =
          [spaces c ++ key ++ ":"] ++ renderEntries cfg (c + cfg.indent) none es := rfl
      rw [hsplit]
      refine balanced_append _ _ (balanced_zeros _ ?_)
        (balanced_renderEntries cfg _ none es trivial hn.2)
      intro l hl
      simp only [List.mem_singleton] at hl
      subst hl
      exact dirDelta_key c key ":" hkey [] rfl

theorem balanced_renderEntries (cfg : Config) (c : Nat) (pending : Option String)
    (es : EntryList) (hp : pendingShaped pending) (hn : cleanEntries es = true) :
    balancedLines (renderEntries cfg c pending es) := by
  cases es with
  | nil => exact balanced_nil
  | cons k n t =>
    simp only [cleanEntries, Bool.and_eq_true, bne_iff_ne, ne_eq] at hn
    exact balanced_append _ _ (balanced_renderEntry cfg c pending k n hp hn.1.1 hn.1.2)
      (balanced_renderEntries cfg c none t trivial hn.2)

end




theorem balanced_renderRoot (cfg : Config) (root : Node) (ls : List String)
    (hn : cleanNode root = true) (h : renderRoot cfg root = some ls) :
    balancedLines ls := by
  cases root with
  | scalar v com cond => simp [renderRoot] at h
  | list ns com cond => simp [renderRoot] at h
  | object es com cond =>
    simp only [renderRoot, Option.some.injEq] at h
    subst h
    simp only [cleanNode, Bool.and_eq_true, bne_iff_ne, ne_eq] at hn
    exact balanced_annotated cfg 0 none com cond _ trivial hn.1
      (balanced_renderEntries cfg 0 none es trivial hn.2)

theorem dirSum_counts (ls : List String) :
    dirSum ls = (ls.countP isOpenLine : Int) - (ls.countP isCloseLine : Int) := by
  induction ls with
  | nil => simp [dirSum]
  | cons l t ih =>
    rw [dirSum_cons, ih, List.countP_cons, List.countP_cons]
    cases hc : isCloseLine l with
    | true =>
      have ho : isOpenLine l = false := by simp [isOpenLine, hc]
      simp [dirDelta, hc, ho]
      ring
    | false =>
      cases ho : isOpenLine l with
      | true =>
        simp [dirDelta, hc, ho]
        ring
      | false =>
        simp [dirDelta, hc, ho]

/-- C5: balanced directives.  For every clean tree (no condition text is the
bare word end and no key starts with an opening brace after its indentation,
so that no content line reads as a directive), the rendered output contains
exactly as many opening conditional directive lines as closing directive
lines, and they nest properly: every prefix of the output closes at most as
many directives as it has opened. -/
theorem C5_balanced_directives :
    ∀ (cfg : Config) (root : Node) (ls : List String),
      cleanNode root = true →
      renderRoot cfg root = some ls →
      ls.countP isOpenLine = ls.countP isCloseLine ∧
      ∀ n, (ls.take n).countP isCloseLine ≤ (ls.take n).countP isOpenLine := by
  intro cfg root ls hn h
  obtain ⟨hsum, hpre⟩ := balanced_renderRoot cfg root ls hn h
  constructor
  · have hco := dirSum_counts ls
    omega
  · intro n
    have h1 := hpre n
    have h2 := dirSum_counts (ls.take n)
    omega

/-- C5 witness: the balance theorem applied to a concrete guarded tree whose
rendering opens two directives and closes both. -/
theorem C5_balanced_directives_witness :
    (["\x7b\x7b- if y \x7d\x7d", "\x7b\x7b- if x \x7d\x7d", "Scalar: 42",
      "\x7b\x7b- end \x7d\x7d", "\x7b\x7b- end \x7d\x7d"] : List String).countP isOpenLine =
    (["\x7b\x7b- if y \x7d\x7d", "\x7b\x7b- if x \x7d\x7d", "Scalar: 42",
      "\x7b\x7b- end \x7d\x7d", "\x7b\x7b- end \x7d\x7d"] : List String).countP isCloseLine :=
  (C5_balanced_directives ⟨2, 0⟩
    (.object (.cons "Scalar" (.scalar "42" "" "if x") .nil) "" "if y")
    ["\x7b\x7b- if y \x7d\x7d", "\x7b\x7b- if x \x7d\x7d", "Scalar: 42",
      "\x7b\x7b- end \x7d\x7d", "\x7b\x7b- end \x7d\x7d"] (by rfl) (by rfl)).1

end Helm
